import Mathlib

/-!
Shallow embedding of the WhatsApp chat-analysis parser core (`app.py`) and
verification of its specification claims.

Text is modelled as `List Char`, raw file bytes as `List Nat` (one entry per
byte).  Each Python function of the parsing core is translated into an
executable Lean definition carrying the same name where possible:
`try_decode`, `detect_header`, `robust_preprocess`, together with the
regular-expression header patterns (`HEADER_PATTERNS`, modelled as
deterministic parsers that are extensionally equal to the anchored regexes),
a model of `datetime.strptime` restricted to the directives the program uses
(`%d %m %y %Y %H %I %M %S %p` plus literal and whitespace format characters),
and the line-scanning accumulator loop of `robust_preprocess`.
-/

/-- Convenience: the character list underlying a string literal. -/
def strL (s : String) : List Char := s.data

/-! ## Python string primitives used by the source -/

/-- Whitespace as recognised by Python's `str.strip()` / `str.isspace()`
(ASCII whitespace, the C1 separators, NEL, NBSP and the Unicode space
characters).  The same class is used for the `\s` character class of the
`re` module, which Python compiles with full Unicode semantics. -/
def isPyWs (c : Char) : Bool :=
  c = ' ' || c = '\t' || c = '\n' || c = '\r' || c = '\x0b' || c = '\x0c' ||
  c = '\x1c' || c = '\x1d' || c = '\x1e' || c = '\x1f' || c = '\u0085' ||
  c = '\u00A0' || c = '\u1680' || ('\u2000' ≤ c && c ≤ '\u200A') ||
  c = '\u2028' || c = '\u2029' || c = '\u202F' || c = '\u205F' || c = '\u3000'

/-- Python `str.strip()` with no argument: drop leading and trailing
whitespace. -/
def pyStrip (l : List Char) : List Char :=
  ((l.dropWhile isPyWs).reverse.dropWhile isPyWs).reverse

/-- Python `str.rstrip("\n\r")`: drop trailing `'\n'` and `'\r'` characters. -/
def rstripNlCr (l : List Char) : List Char :=
  (l.reverse.dropWhile (fun c => c = '\n' || c = '\r')).reverse

/-- Line-break characters recognised by Python `str.splitlines()`. -/
def isLineBreakChar (c : Char) : Bool :=
  c = '\n' || c = '\r' || c = '\x0b' || c = '\x0c' || c = '\x1c' ||
  c = '\x1d' || c = '\x1e' || c = '\u0085' || c = '\u2028' || c = '\u2029'

/-- Worker for `splitlines`: `cur` is the reversed current line. -/
def splitlinesGo : List Char → List Char → List (List Char)
  | cur, [] => if cur.isEmpty then [] else [cur.reverse]
  | cur, '\r' :: '\n' :: rest => cur.reverse :: splitlinesGo [] rest
  | cur, c :: rest =>
    if isLineBreakChar c then cur.reverse :: splitlinesGo [] rest
    else splitlinesGo (c :: cur) rest

/-- Python `str.splitlines()`: split at line-break characters (treating
`"\r\n"` as a single break); a trailing break does not produce an empty
final line. -/
def splitlines (text : List Char) : List (List Char) :=
  splitlinesGo [] text

/-- Python `str.upper()` (the characters the program feeds through this are
ASCII, for which `Char.toUpper` agrees with Python). -/
def upperStr (cs : List Char) : List Char := cs.map Char.toUpper

/-- Python substring test `pat in s`. -/
def isSubstrOf (pat s : List Char) : Bool :=
  s.tails.any (fun t => pat.isPrefixOf t)

/-- Python `s.split(":")`: split at every colon; always returns at least one
group (`"".split(":") == [""]`). -/
def splitColon : List Char → List (List Char)
  | [] => [[]]
  | c :: rest =>
    if c = ':' then [] :: splitColon rest
    else
      match splitColon rest with
      | [] => [[c]]
      | g :: gs => (c :: g) :: gs

/-- Python `s.split("/")[-1]`: everything after the last slash (the whole
string when there is no slash). -/
def lastSlashSeg (cs : List Char) : List Char :=
  (cs.reverse.takeWhile (fun c => !(c = '/'))).reverse

/-- Python `fmt.replace("%Y", "%y")` restricted to the `"%Y"` pattern:
replace each (non-overlapping, left-to-right) occurrence. -/
def replaceYY : List Char → List Char
  | '%' :: 'Y' :: rest => '%' :: 'y' :: replaceYY rest
  | c :: rest => c :: replaceYY rest
  | [] => []

/-! ## `try_decode`: byte decoding with fallbacks (`app.py` lines 23–31)

```python
def try_decode(raw: bytes) -> str:
    for enc in ("utf-8", "cp1252", "latin-1"):
        try:
            return raw.decode(enc)
        except Exception:
            continue
    # last resort
    return raw.decode("utf-8", errors="ignore")
```
-/

/-- A UTF-8 continuation byte. -/
def isContB (b : Nat) : Bool := 0x80 ≤ b && b ≤ 0xBF

/-- Strict UTF-8 decoding, as `bytes.decode("utf-8")`: rejects truncated and
overlong sequences, surrogates and code points above `0x10FFFF`. -/
def utf8Decode : List Nat → Option (List Char)
  | [] => some []
  | b :: rest =>
    if b ≤ 0x7F then (utf8Decode rest).map (fun s => Char.ofNat b :: s)
    else if 0xC2 ≤ b && b ≤ 0xDF then
      match rest with
      | b2 :: rest2 =>
        if isContB b2 then
          (utf8Decode rest2).map (fun s => Char.ofNat ((b - 0xC0) * 0x40 + (b2 - 0x80)) :: s)
        else none
      | [] => none
    else if 0xE0 ≤ b && b ≤ 0xEF then
      match rest with
      | b2 :: b3 :: rest3 =>
        let lowOk :=
          if b = 0xE0 then 0xA0 ≤ b2 && b2 ≤ 0xBF
          else if b = 0xED then 0x80 ≤ b2 && b2 ≤ 0x9F
          else isContB b2
        if lowOk && isContB b3 then
          (utf8Decode rest3).map
            (fun s => Char.ofNat ((b - 0xE0) * 0x1000 + (b2 - 0x80) * 0x40 + (b3 - 0x80)) :: s)
        else none
      | _ => none
    else if 0xF0 ≤ b && b ≤ 0xF4 then
      match rest with
      | b2 :: b3 :: b4 :: rest4 =>
        let lowOk :=
          if b = 0xF0 then 0x90 ≤ b2 && b2 ≤ 0xBF
          else if b = 0xF4 then 0x80 ≤ b2 && b2 ≤ 0x8F
          else isContB b2
        if lowOk && isContB b3 && isContB b4 then
          (utf8Decode rest4).map
            (fun s =>
              Char.ofNat ((b - 0xF0) * 0x40000 + (b2 - 0x80) * 0x1000 +
                (b3 - 0x80) * 0x40 + (b4 - 0x80)) :: s)
        else none
      | _ => none
    else none

/-- One byte of `bytes.decode("cp1252")`: the 0x80–0x9F block maps through
the Windows-1252 table, five of its positions are undefined and make the
decode fail; all other bytes map to the identical code point. -/
def cp1252Byte (b : Nat) : Option Nat :=
  if b < 0x80 || b > 0x9F then some b
  else if b = 0x80 then some 0x20AC
  else if b = 0x82 then some 0x201A
  else if b = 0x83 then some 0x0192
  else if b = 0x84 then some 0x201E
  else if b = 0x85 then some 0x2026
  else if b = 0x86 then some 0x2020
  else if b = 0x87 then some 0x2021
  else if b = 0x88 then some 0x02C6
  else if b = 0x89 then some 0x2030
  else if b = 0x8A then some 0x0160
  else if b = 0x8B then some 0x2039
  else if b = 0x8C then some 0x0152
  else if b = 0x8E then some 0x017D
  else if b = 0x91 then some 0x2018
  else if b = 0x92 then some 0x2019
  else if b = 0x93 then some 0x201C
  else if b = 0x94 then some 0x201D
  else if b = 0x95 then some 0x2022
  else if b = 0x96 then some 0x2013
  else if b = 0x97 then some 0x2014
  else if b = 0x98 then some 0x02DC
  else if b = 0x99 then some 0x2122
  else if b = 0x9A then some 0x0161
  else if b = 0x9B then some 0x203A
  else if b = 0x9C then some 0x0153
  else if b = 0x9E then some 0x017E
  else if b = 0x9F then some 0x0178
  else none

/-- `bytes.decode("cp1252")`. -/
def cp1252Decode : List Nat → Option (List Char)
  | [] => some []
  | b :: rest =>
    match cp1252Byte b with
    | some cp => (cp1252Decode rest).map (fun s => Char.ofNat cp :: s)
    | none => none

/-- `bytes.decode("latin-1")`: every byte maps to the identical code point;
this decoding never fails (wrapped in `Option` to mirror the fallback loop). -/
def latin1Decode (raw : List Nat) : Option (List Char) :=
  some (raw.map Char.ofNat)

/-- `bytes.decode("utf-8", errors="ignore")`: like `utf8Decode` but skipping
offending bytes.  (Since UTF-8 continuation bytes are never valid start
bytes, restarting one byte after an error is extensionally the same as
Python's skip-the-reported-span behaviour.  `try_decode` never reaches this
branch, see `claim_C7`.) -/
def utf8DecodeIgnore : List Nat → List Char
  | [] => []
  | b :: rest =>
    if b ≤ 0x7F then Char.ofNat b :: utf8DecodeIgnore rest
    else if 0xC2 ≤ b && b ≤ 0xDF then
      match rest with
      | b2 :: rest2 =>
        if isContB b2 then Char.ofNat ((b - 0xC0) * 0x40 + (b2 - 0x80)) :: utf8DecodeIgnore rest2
        else utf8DecodeIgnore (b2 :: rest2)
      | [] => []
    else if 0xE0 ≤ b && b ≤ 0xEF then
      match rest with
      | b2 :: b3 :: rest3 =>
        let lowOk :=
          if b = 0xE0 then 0xA0 ≤ b2 && b2 ≤ 0xBF
          else if b = 0xED then 0x80 ≤ b2 && b2 ≤ 0x9F
          else isContB b2
        if lowOk && isContB b3 then
          Char.ofNat ((b - 0xE0) * 0x1000 + (b2 - 0x80) * 0x40 + (b3 - 0x80)) :: utf8DecodeIgnore rest3
        else utf8DecodeIgnore (b2 :: b3 :: rest3)
      | short => utf8DecodeIgnore short
    else if 0xF0 ≤ b && b ≤ 0xF4 then
      match rest with
      | b2 :: b3 :: b4 :: rest4 =>
        let lowOk :=
          if b = 0xF0 then 0x90 ≤ b2 && b2 ≤ 0xBF
          else if b = 0xF4 then 0x80 ≤ b2 && b2 ≤ 0x8F
          else isContB b2
        if lowOk && isContB b3 && isContB b4 then
          Char.ofNat ((b - 0xF0) * 0x40000 + (b2 - 0x80) * 0x1000 +
            (b3 - 0x80) * 0x40 + (b4 - 0x80)) :: utf8DecodeIgnore rest4
        else utf8DecodeIgnore (b2 :: b3 :: b4 :: rest4)
      | short => utf8DecodeIgnore short
    else utf8DecodeIgnore rest
termination_by l => l.length
decreasing_by all_goals (simp only [List.length_cons]; omega)

/-- `try_decode` (`app.py` 23–31): try utf-8, then cp1252, then latin-1,
returning the first decode that succeeds; as a last resort decode utf-8 with
errors ignored. -/
def try_decode (raw : List Nat) : List Char :=
  match utf8Decode raw with
  | some s => s
  | none =>
    match cp1252Decode raw with
    | some s => s
    | none =>
      match latin1Decode raw with
      | some s => s
      | none => utf8DecodeIgnore raw

/-! ## Header patterns (`HEADER_PATTERNS`, `app.py` 33–46)

Each regex is anchored at the start (`re.match`) and ends in `(.*)$`.
They are modelled as deterministic parsers over `List Char`; determinism is
justified pattern by pattern: after every point where the regex engine could
backtrack, the following mandatory token (a literal `'/'`, `','`, `':'`,
`' '`, `'-'`, `']'` or an `[APap]` letter) can never match a digit, so the
leftmost-greedy parse is the only parse that can succeed. -/

/-- The captured groups of a header match: date substring, time substring,
author substring and the inline message fragment. -/
structure Groups where
  dateRaw : List Char
  timeRaw : List Char
  userRaw : List Char
  msgRaw : List Char
deriving DecidableEq, Repr

/-- Consume an exact literal, as a regex literal character sequence. -/
def dropLit : List Char → List Char → Option (List Char)
  | [], cs => some cs
  | a :: lit, c :: cs => if c = a then dropLit lit cs else none
  | _ :: _, [] => none

/-- `(\d{1,2}/\d{1,2}/\d{2,4})`: day / month / year digit groups.  Returns
the captured text and the remainder.  All digit runs are maximal; a longer
run than the quantifier permits fails because the character required next
(`'/'` or `','`) is not a digit. -/
def parseDatePart (cs : List Char) : Option (List Char × List Char) :=
  let d1 := cs.takeWhile Char.isDigit
  let r1 := cs.dropWhile Char.isDigit
  if d1.length = 0 || d1.length > 2 then none
  else
    match dropLit (strL "/") r1 with
    | none => none
    | some r2 =>
      let d2 := r2.takeWhile Char.isDigit
      let r3 := r2.dropWhile Char.isDigit
      if d2.length = 0 || d2.length > 2 then none
      else
        match dropLit (strL "/") r3 with
        | none => none
        | some r4 =>
          let yy := r4.takeWhile Char.isDigit
          let r5 := r4.dropWhile Char.isDigit
          if yy.length < 2 || yy.length > 4 then none
          else some (d1 ++ '/' :: d2 ++ '/' :: yy, r5)

/-- Date group followed by the literal `", "` (shared by all four patterns). -/
def parseDateComma (cs : List Char) : Option (List Char × List Char) :=
  match parseDatePart cs with
  | none => none
  | some (date, r) =>
    match dropLit (strL ", ") r with
    | none => none
    | some r2 => some (date, r2)

/-- `\d{1,2}:\d{2}`: hour and minute digits (minutes exactly two digits). -/
def parseHM (cs : List Char) : Option (List Char × List Char) :=
  let h := cs.takeWhile Char.isDigit
  let r1 := cs.dropWhile Char.isDigit
  if h.length = 0 || h.length > 2 then none
  else
    match r1 with
    | ':' :: m1 :: m2 :: r2 =>
      if m1.isDigit && m2.isDigit then some (h ++ ':' :: [m1, m2], r2) else none
    | _ => none

/-- `(?::\d{2})?`: optional seconds.  The regex engine commits to the group
whenever the next character is `':'`, because neither continuation (`']'` or
`\s?[APap]`) can match `':'`; hence the deterministic rule below. -/
def parseOptSec (cs : List Char) : List Char × List Char :=
  match cs with
  | ':' :: s1 :: s2 :: r =>
    if s1.isDigit && s2.isDigit then (':' :: [s1, s2], r) else ([], cs)
  | _ => ([], cs)

/-- The `[APap]` character class. -/
def isAp (c : Char) : Bool := c = 'A' || c = 'P' || c = 'a' || c = 'p'

/-- The `[Mm]` character class. -/
def isMm (c : Char) : Bool := c = 'M' || c = 'm'

/-- `\s?[APap][Mm]`: an optional whitespace then the AM/PM marker.  The
space is consumed exactly when present followed by a marker letter (the
classes `\s` and `[APap]` are disjoint, so this is deterministic). -/
def parseAmPm (cs : List Char) : Option (List Char × List Char) :=
  match cs with
  | [] => none
  | c1 :: rest1 =>
    if isAp c1 then
      match rest1 with
      | [] => none
      | c2 :: rest2 => if isMm c2 then some ([c1, c2], rest2) else none
    else if isPyWs c1 then
      match rest1 with
      | c2 :: c3 :: rest3 =>
        if isAp c2 && isMm c3 then some ([c1, c2, c3], rest3) else none
      | _ => none
    else none

/-- `(.*)$` at the end of a pattern: `.` does not match `'\n'` and `$` also
matches just before a final `'\n'`, so the tail is captured iff it contains
no `'\n'`, or exactly one `'\n'` at its very end (which is not captured). -/
def parseMsgTail (cs : List Char) : Option (List Char) :=
  if cs.contains '\n' then
    if cs.getLast? = some '\n' && !(cs.dropLast.contains '\n') then some cs.dropLast
    else none
  else some cs

/-- `([^:]+): (.*)$`: a non-empty author capture (greedy, so all characters
up to the first colon), the literal `": "`, then the message tail. -/
def parseUserMsg (cs : List Char) : Option (List Char × List Char) :=
  let u := cs.takeWhile (fun c => !(c = ':'))
  let rest := cs.dropWhile (fun c => !(c = ':'))
  if u.isEmpty then none
  else
    match dropLit (strL ": ") rest with
    | none => none
    | some r => (parseMsgTail r).map (fun msg => (u, msg))

/-- Shared head of the two dash-delimited (Android) patterns:
date, `", "`, then `\d{1,2}:\d{2}`. -/
def parseDashLead (cs : List Char) : Option (List Char × List Char × List Char) :=
  match parseDateComma cs with
  | none => none
  | some (date, r1) =>
    match parseHM r1 with
    | none => none
    | some (time, r2) => some (date, time, r2)

/-- Shared head of the two bracket-delimited (iOS) patterns:
`'['`, date, `", "`, then `\d{1,2}:\d{2}(?::\d{2})?`. -/
def parseBracketLead (cs : List Char) : Option (List Char × List Char × List Char) :=
  match cs with
  | [] => none
  | c :: r0 =>
    if c = '[' then
      match parseDateComma r0 with
      | none => none
      | some (date, r1) =>
        match parseHM r1 with
        | none => none
        | some (time, r2) =>
          let sec := (parseOptSec r2).1
          let r3 := (parseOptSec r2).2
          some (date, time ++ sec, r3)
    else none

/-- Pattern 1, Android 24h:
`^(\d{1,2}/\d{1,2}/\d{2,4}), (\d{1,2}:\d{2}) - ([^:]+): (.*)$`. -/
def matchP1 (cs : List Char) : Option Groups :=
  match parseDashLead cs with
  | none => none
  | some (date, time, r2) =>
    match dropLit (strL " - ") r2 with
    | none => none
    | some r3 =>
      (parseUserMsg r3).map (fun p => ⟨date, time, p.1, p.2⟩)

/-- Pattern 2, Android 12h:
`^(\d{1,2}/\d{1,2}/\d{2,4}), (\d{1,2}:\d{2}\s?[APap][Mm]) - ([^:]+): (.*)$`. -/
def matchP2 (cs : List Char) : Option Groups :=
  match parseDashLead cs with
  | none => none
  | some (date, time, r2) =>
    match parseAmPm r2 with
    | none => none
    | some (ap, r3) =>
      match dropLit (strL " - ") r3 with
      | none => none
      | some r4 =>
        (parseUserMsg r4).map (fun p => ⟨date, time ++ ap, p.1, p.2⟩)

/-- Pattern 3, iOS:
`^\[(\d{1,2}/\d{1,2}/\d{2,4}), (\d{1,2}:\d{2}(?::\d{2})?)\] ([^:]+): (.*)$`. -/
def matchP3 (cs : List Char) : Option Groups :=
  match parseBracketLead cs with
  | none => none
  | some (date, time, r3) =>
    match dropLit (strL "] ") r3 with
    | none => none
    | some r4 =>
      (parseUserMsg r4).map (fun p => ⟨date, time, p.1, p.2⟩)

/-- Pattern 4, iOS with AM/PM:
`^\[(\d{1,2}/\d{1,2}/\d{2,4}), (\d{1,2}:\d{2}(?::\d{2})?\s?[APap][Mm])\] ([^:]+): (.*)$`. -/
def matchP4 (cs : List Char) : Option Groups :=
  match parseBracketLead cs with
  | none => none
  | some (date, time, r3) =>
    match parseAmPm r3 with
    | none => none
    | some (ap, r4) =>
      match dropLit (strL "] ") r4 with
      | none => none
      | some r5 =>
        (parseUserMsg r5).map (fun p => ⟨date, time ++ ap, p.1, p.2⟩)

/-- `HEADER_PATTERNS` (`app.py` 33–46): matcher, date-format hint, and
time-format hint (`none` = "decided dynamically"). -/
def HEADER_PATTERNS :
    List ((List Char → Option Groups) × List Char × Option (List Char)) :=
  [(matchP1, strL "%d/%m/%Y", some (strL "%H:%M")),
   (matchP2, strL "%d/%m/%Y", some (strL "%I:%M %p")),
   (matchP3, strL "%d/%m/%Y", none),
   (matchP4, strL "%d/%m/%Y", none)]

/-- The loop body of `detect_header`: try each pattern top-down, first match
wins.  The Python function returns the compiled pattern and the caller
re-matches it against the same line to extract the groups; since the match
is deterministic, returning the captured groups directly is equivalent. -/
def detectIn :
    List ((List Char → Option Groups) × List Char × Option (List Char)) →
    List Char → Option (Groups × List Char × Option (List Char))
  | [], _ => none
  | e :: es, line =>
    match e.1 line with
    | some g => some (g, e.2.1, e.2.2)
    | none => detectIn es line

/-- `detect_header` (`app.py` 53–58). -/
def detect_header (line : List Char) :
    Option (Groups × List Char × Option (List Char)) :=
  detectIn HEADER_PATTERNS line

/-! ## A model of `datetime.strptime` for the formats the program uses

Python's `_strptime` compiles the format string into one regular expression
(matched case-insensitively) and requires the whole input to be consumed.
Numeric directives use 1–2 digit alternations (`%d`: `3[01]|[12]\d|0[1-9]|[1-9]`,
`%m`/`%I`: `1[0-2]|0[1-9]|[1-9]`, `%H`: `2[0-3]|[0-1]\d|\d`,
`%M`: `[0-5]\d|\d`, `%S`: `6[0-1]|[0-5]\d|\d`), `%y` is exactly `\d\d`,
`%Y` exactly `\d\d\d\d`, `%p` is `AM|PM` case-insensitive, a whitespace
character in the format becomes `\s+`, and other characters are literal.
In every format the program passes, each numeric directive is followed by a
token that cannot match a digit (`/`, `:`, whitespace, `AM|PM`, or the end
of the input), so the backtracking alternation is equivalent to the
deterministic rule "take the maximal digit run; accept it iff its width and
value fit one of the alternatives" implemented here.
The parsed values are finally validated exactly as the `datetime`
constructor does (`datetime.strptime` builds a `datetime`, so out-of-range
components such as February 30th or second 61 raise and make the parse
fail). -/

/-- Numeric value of a digit run. -/
def digitsVal (ds : List Char) : Nat :=
  ds.foldl (fun a c => a * 10 + (c.toNat - 48)) 0

/-- A 1–2 digit numeric directive: maximal digit run, accepted iff its
width is one and `ok1` holds of its value, or two and `ok2` holds. -/
def numDirective (ok1 ok2 : Nat → Bool) (input : List Char) :
    Option (Nat × List Char) :=
  let ds := input.takeWhile Char.isDigit
  let rest := input.dropWhile Char.isDigit
  if ds.length = 1 then (if ok1 (digitsVal ds) then some (digitsVal ds, rest) else none)
  else if ds.length = 2 then (if ok2 (digitsVal ds) then some (digitsVal ds, rest) else none)
  else none

/-- An exactly-`w`-digits numeric directive (`%y`, `%Y`). -/
def fixedWidthNum (w : Nat) (input : List Char) : Option (Nat × List Char) :=
  let ds := input.takeWhile Char.isDigit
  let rest := input.dropWhile Char.isDigit
  if ds.length = w then some (digitsVal ds, rest) else none

/-- The fields accumulated while interpreting a format string
(`p = some true` means a PM marker was parsed). -/
structure TmAcc where
  d : Option Nat := none
  m : Option Nat := none
  y : Option Nat := none
  H : Option Nat := none
  I : Option Nat := none
  M : Option Nat := none
  S : Option Nat := none
  p : Option Bool := none
deriving DecidableEq, Repr

/-- Interpret one `%`-directive against the input. -/
def matchDirective (c : Char) (input : List Char) (acc : TmAcc) :
    Option (TmAcc × List Char) :=
  if c = 'd' then
    (numDirective (fun v => 1 ≤ v) (fun v => 1 ≤ v && v ≤ 31) input).map
      (fun q => ({acc with d := some q.1}, q.2))
  else if c = 'm' then
    (numDirective (fun v => 1 ≤ v) (fun v => 1 ≤ v && v ≤ 12) input).map
      (fun q => ({acc with m := some q.1}, q.2))
  else if c = 'y' then
    -- two-digit years: 0–68 land in the 2000s, 69–99 in the 1900s
    (fixedWidthNum 2 input).map
      (fun q => ({acc with y := some (if q.1 ≤ 68 then 2000 + q.1 else 1900 + q.1)}, q.2))
  else if c = 'Y' then
    (fixedWidthNum 4 input).map (fun q => ({acc with y := some q.1}, q.2))
  else if c = 'H' then
    (numDirective (fun _ => true) (fun v => v ≤ 23) input).map
      (fun q => ({acc with H := some q.1}, q.2))
  else if c = 'I' then
    (numDirective (fun v => 1 ≤ v) (fun v => 1 ≤ v && v ≤ 12) input).map
      (fun q => ({acc with I := some q.1}, q.2))
  else if c = 'M' then
    (numDirective (fun _ => true) (fun v => v ≤ 59) input).map
      (fun q => ({acc with M := some q.1}, q.2))
  else if c = 'S' then
    (numDirective (fun _ => true) (fun v => v ≤ 61) input).map
      (fun q => ({acc with S := some q.1}, q.2))
  else if c = 'p' then
    match input with
    | c1 :: c2 :: rest =>
      if (c1 = 'A' || c1 = 'a') && isMm c2 then some ({acc with p := some false}, rest)
      else if (c1 = 'P' || c1 = 'p') && isMm c2 then some ({acc with p := some true}, rest)
      else none
    | _ => none
  else none

/-- Run the format string over the input, requiring full consumption. -/
def strptimeGo : List Char → List Char → TmAcc → Option TmAcc
  | [], input, acc => if input.isEmpty then some acc else none
  | '%' :: c :: fmtRest, input, acc =>
    match matchDirective c input acc with
    | some (acc2, rest) => strptimeGo fmtRest rest acc2
    | none => none
  | c :: fmtRest, input, acc =>
    if isPyWs c then
      -- a whitespace character in the format matches `\s+`
      let ws := input.takeWhile isPyWs
      let rest := input.dropWhile isPyWs
      if ws.isEmpty then none else strptimeGo fmtRest rest acc
    else
      match input with
      | i :: irest => if i = c then strptimeGo fmtRest irest acc else none
      | [] => none

/-- A parsed timestamp (the result type of the embedding's
`datetime.strptime` and of the combined `datetime(...)` constructor). -/
structure Datetime where
  year : Nat
  month : Nat
  day : Nat
  hour : Nat
  minute : Nat
  second : Nat
deriving DecidableEq, Repr

/-- Gregorian leap-year rule (as Python's `calendar`/`datetime`). -/
def isLeap (y : Nat) : Bool := y % 4 = 0 && (!(y % 100 = 0) || y % 400 = 0)

/-- Days in a month. -/
def daysInMonth (y m : Nat) : Nat :=
  if m = 2 then (if isLeap y then 29 else 28)
  else if m = 4 || m = 6 || m = 9 || m = 11 then 30
  else 31

/-- `datetime.strptime(input, fmt)`.  Defaults are Python's (year 1900,
month 1, day 1, midnight); a 12-hour value is combined with the AM/PM flag
the way `_strptime` does; the assembled components are validated as the
`datetime` constructor validates them. -/
def strptime (input fmt : List Char) : Option Datetime :=
  match strptimeGo fmt input {} with
  | none => none
  | some acc =>
    let year := acc.y.getD 1900
    let month := acc.m.getD 1
    let day := acc.d.getD 1
    let hour :=
      match acc.I, acc.p with
      | some i, some true => if i = 12 then 12 else i + 12
      | some i, _ => if i = 12 then 0 else i
      | none, _ => acc.H.getD 0
    let minute := acc.M.getD 0
    let second := acc.S.getD 0
    if 1 ≤ year ∧ year ≤ 9999 ∧ 1 ≤ month ∧ month ≤ 12 ∧
        1 ≤ day ∧ day ≤ daysInMonth year month ∧
        hour ≤ 23 ∧ minute ≤ 59 ∧ second ≤ 59 then
      some ⟨year, month, day, hour, minute, second⟩
    else none

/-! ## The parse loop of `robust_preprocess` (`app.py` 67–142) -/

/-- Python `":" in time_raw`. -/
def containsColon (tr : List Char) : Bool := tr.any (fun c => c = ':')

/-- Python `"AM" in time_raw.upper() or "PM" in time_raw.upper()`. -/
def hasAmPm (tr : List Char) : Bool :=
  isSubstrOf (strL "AM") (upperStr tr) || isSubstrOf (strL "PM") (upperStr tr)

/-- The dynamic time-format choice (`app.py` 105–108), for the two grammars
whose time format is `None`:

```python
t_fmt = "%H:%M:%S" if (":" in time_raw and len(time_raw.split(":")) == 3
                       and not ("AM" in time_raw.upper() or "PM" in time_raw.upper())) else \
        ("%I:%M:%S %p" if (":" in time_raw and len(time_raw.split(":")) == 3)
                          and ("AM" in time_raw.upper() or "PM" in time_raw.upper())
         else ("%H:%M" if "AM" not in time_raw.upper() and "PM" not in time_raw.upper()
               else "%I:%M %p"))
```
-/
def classifyTime (tr : List Char) : List Char :=
  if containsColon tr = true ∧ (splitColon tr).length = 3 ∧ hasAmPm tr = false then
    strL "%H:%M:%S"
  else if (containsColon tr = true ∧ (splitColon tr).length = 3) ∧ hasAmPm tr = true then
    strL "%I:%M:%S %p"
  else if hasAmPm tr = false then strL "%H:%M"
  else strL "%I:%M %p"

/-- One iteration body of the date-format fallback loop (`app.py` 111–119)
without the year-width adjustment: parse the date with `fmt`, the uppercased
time with `tFmt`, and combine them with
`datetime(d.year, d.month, d.day, t.hour, t.minute, t.second)`. -/
def attemptRaw (fmt dateRaw timeRaw tFmt : List Char) : Option Datetime :=
  match strptime dateRaw fmt with
  | none => none
  | some d =>
    match strptime (upperStr timeRaw) tFmt with
    | none => none
    | some t => some ⟨d.year, d.month, d.day, t.hour, t.minute, t.second⟩

/-- One iteration of the fallback loop including the year-width rule
(`date_fmt_try if len(date_raw.split("/")[-1]) == 4
 else date_fmt_try.replace("%Y", "%y")`). -/
def attemptParse (fmtTry dateRaw timeRaw tFmt : List Char) : Option Datetime :=
  attemptRaw (if (lastSlashSeg dateRaw).length = 4 then fmtTry else replaceYY fmtTry)
    dateRaw timeRaw tFmt

/-- `for date_fmt_try in (d_fmt, "%m/%d/%Y"): ... break` — first success
wins. -/
def resolveFold : List (List Char) → List Char → List Char → List Char → Option Datetime
  | [], _, _, _ => none
  | f :: fs, dr, tr, tf =>
    match attemptParse f dr tr tf with
    | some dt => some dt
    | none => resolveFold fs dr tr tf

/-- The complete timestamp resolution for one header line: try the
grammar's date format (day/month order), then `"%m/%d/%Y"` (month/day). -/
def resolveTimestamp (dFmt dateRaw timeRaw tFmt : List Char) : Option Datetime :=
  resolveFold [dFmt, strL "%m/%d/%Y"] dateRaw timeRaw tFmt

/-- Timestamp resolution for a detected header: its time format is the
grammar's fixed one, or the dynamically classified one when the hint is
`none`. -/
def headerPdt (g : Groups) (dFmt : List Char) (tFmtOpt : Option (List Char)) :
    Option Datetime :=
  let tFmt :=
    match tFmtOpt with
    | some t => t
    | none => classifyTime g.timeRaw
  resolveTimestamp dFmt g.dateRaw g.timeRaw tFmt

/-- The timestamp a given line would resolve to (`none` when the line is
not a header or its date/time substrings fail every fallback). -/
def lineTimestamp (ln : List Char) : Option Datetime :=
  match detect_header ln with
  | some (g, dF, tF) => headerPdt g dF tF
  | none => none

/-- A line that matches a header grammar and resolves a timestamp. -/
def lineResolvable (ln : List Char) : Bool := (lineTimestamp ln).isSome

/-- The mutable accumulator `cur` of the parse loop:
`{"date": ..., "time": ..., "user": ..., "message": [...]}`.
(`message` is initialised to a list and is never `None` anywhere in the
source, so the `cur["message"] is not None` guard on the continuation
branch is always true and the field is modelled as a plain list.) -/
structure Cur where
  date : Option Datetime
  time : Option Datetime
  user : Option (List Char)
  message : List (List Char)
deriving DecidableEq, Repr

/-- `cur = {"date": None, "time": None, "user": None, "message": []}`. -/
def initCur : Cur := ⟨none, none, none, []⟩

/-- One flushed record: the four columns `datetime`, `time_obj`, `user`,
`message` of `records.append([cur["date"], cur["time"], user, msg])`. -/
structure Record where
  datetime : Datetime
  time_obj : Datetime
  user : List Char
  message : List Char
deriving DecidableEq, Repr

/-- Author resolution inside `flush`: `"group_notification"` when the
header carried no author, else the stripped author, with the empty string
falling back to the sentinel (`cur["user"].strip() or "group_notification"`). -/
def userResolve : Option (List Char) → List Char
  | none => strL "group_notification"
  | some u => if (pyStrip u).isEmpty then strL "group_notification" else pyStrip u

/-- `flush()` (`app.py` 87–94): emit a record iff `cur["date"] and
cur["time"]` are set (a Python `datetime` is always truthy, so this is an
`isSome` test); the message is the continuation lines joined by `"\n"` and
stripped. -/
def flushRecs (cur : Cur) : List Record :=
  match cur.date, cur.time with
  | some d, some t =>
    [⟨d, t, userResolve cur.user, pyStrip (List.intercalate ['\n'] cur.message)⟩]
  | _, _ => []

/-- `cur["user"] = user_raw.strip() if user_raw else None`. -/
def mkUserField (u : List Char) : Option (List Char) :=
  if u.isEmpty then none else some (pyStrip u)

/-- `cur["message"] = [msg] if msg else []`. -/
def mkMsgInit (m : List Char) : List (List Char) :=
  if m.isEmpty then [] else [m]

/-- The fresh accumulator seeded from a header line (`app.py` 131–136). -/
def newCurOf (g : Groups) (dFmt : List Char) (tFmtOpt : Option (List Char)) : Cur :=
  ⟨headerPdt g dFmt tFmtOpt, headerPdt g dFmt tFmtOpt, mkUserField g.userRaw,
    mkMsgInit g.msgRaw⟩

/-- `cur["message"].append(ln)`. -/
def appendMsg (cur : Cur) (ln : List Char) : Cur :=
  {cur with message := cur.message ++ [ln]}

/-- The `for ln in lines` loop of `robust_preprocess` with its trailing
`flush()`: `recs` is the records list accumulated so far. -/
def parseLoop : Cur → List Record → List (List Char) → List Record
  | cur, recs, [] => recs ++ flushRecs cur
  | cur, recs, ln :: ls =>
    match detect_header ln with
    | some (g, dF, tF) => parseLoop (newCurOf g dF tF) (recs ++ flushRecs cur) ls
    | none => parseLoop (appendMsg cur ln) recs ls

/-- `[ln.rstrip("\n\r") for ln in text.splitlines() if ln.strip()]`. -/
def extractLines (text : List Char) : List (List Char) :=
  ((splitlines text).filter (fun ln => !(pyStrip ln).isEmpty)).map rstripNlCr

/-- English month names, as `datetime.strftime("%B")` in the C locale. -/
def monthName (m : Nat) : List Char :=
  (["January", "February", "March", "April", "May", "June", "July",
    "August", "September", "October", "November", "December"].map strL).getD (m - 1) []

/-- Zeller's congruence: 0 = Saturday, ..., 6 = Friday. -/
def zellerIndex (y m d : Nat) : Nat :=
  let mz := if m ≤ 2 then m + 12 else m
  let yz := if m ≤ 2 then y - 1 else y
  (d + 13 * (mz + 1) / 5 + yz % 100 + yz % 100 / 4 + yz / 100 / 4 + 5 * (yz / 100)) % 7

/-- English weekday names, as `datetime.strftime("%A")`. -/
def dayName (y m d : Nat) : List Char :=
  (["Saturday", "Sunday", "Monday", "Tuesday", "Wednesday", "Thursday",
    "Friday"].map strL).getD (zellerIndex y m d) []

/-- One output row: the four record columns plus the derived calendar
fields added at `app.py` 144–152 (`date`, `year`, `month_num`, `month`,
`day_name`, `only_date`; the final `fillna("").astype(str)` on `message` is
the identity here since the column already holds strings). -/
structure Row where
  datetime : Datetime
  time_obj : Datetime
  user : List Char
  message : List Char
  date : Nat × Nat × Nat
  year : Nat
  month_num : Nat
  month : List Char
  day_name : List Char
  only_date : Datetime
deriving DecidableEq, Repr

/-- Derived fields of one row. -/
def buildRow (r : Record) : Row :=
  { datetime := r.datetime
    time_obj := r.time_obj
    user := r.user
    message := r.message
    date := (r.datetime.year, r.datetime.month, r.datetime.day)
    year := r.datetime.year
    month_num := r.datetime.month
    month := monthName r.datetime.month
    day_name := dayName r.datetime.year r.datetime.month r.datetime.day
    only_date := ⟨r.datetime.year, r.datetime.month, r.datetime.day, 0, 0, 0⟩ }

/-- `robust_preprocess` (`app.py` 64–154).  The preliminary scan of the
first 200 lines (`app.py` 72–81) computes `header_info` and breaks at the
first match; the value is never read afterwards (the `if not header_info:`
branch is `pass`), which the embedding renders as an unused binding. -/
def robust_preprocess (text : List Char) : List Row :=
  let lines := extractLines text
  if lines.isEmpty then []
  else
    let _header_info := (lines.take 200).findSome? detect_header
    let records := parseLoop initCur [] lines
    if records.isEmpty then [] else records.map buildRow

/-- `robust_preprocess` with the preliminary 200-line scan removed — the
reference point for the claim that the scan has no effect on the output. -/
def robust_preprocess_noscan (text : List Char) : List Row :=
  let lines := extractLines text
  if lines.isEmpty then []
  else
    let records := parseLoop initCur [] lines
    if records.isEmpty then [] else records.map buildRow

/-! ## Auxiliary definitions for the verification -/

/-- The accumulator state after scanning a list of lines (same transitions
as `parseLoop`, without collecting records). -/
def stateAfter : Cur → List (List Char) → Cur
  | cur, [] => cur
  | cur, ln :: ls =>
    match detect_header ln with
    | some (g, dF, tF) => stateAfter (newCurOf g dF tF) ls
    | none => stateAfter (appendMsg cur ln) ls

/-- The records flushed while scanning a list of lines (excluding the final
flush of the remaining accumulator). -/
def emittedFrom : Cur → List (List Char) → List Record
  | _, [] => []
  | cur, ln :: ls =>
    match detect_header ln with
    | some (g, dF, tF) => flushRecs cur ++ emittedFrom (newCurOf g dF tF) ls
    | none => emittedFrom (appendMsg cur ln) ls

/-- The time-format classification as the specification words it: by the
number of colon-separated groups (three means a seconds component) and the
presence of an AM/PM marker, giving one of the four concrete formats. -/
def specClassifyTime (tr : List Char) : List Char :=
  if (splitColon tr).length = 3 then
    (if hasAmPm tr = true then strL "%I:%M:%S %p" else strL "%H:%M:%S")
  else
    (if hasAmPm tr = true then strL "%I:%M %p" else strL "%H:%M")

/-! ## Lemmas about the scanning loop -/

theorem parseLoop_acc (ls : List (List Char)) :
    ∀ (cur : Cur) (recs : List Record),
      parseLoop cur recs ls = recs ++ parseLoop cur [] ls := by
  induction ls with
  | nil => intro cur recs; simp [parseLoop]
  | cons ln ls ih =>
    intro cur recs
    cases hdet : detect_header ln with
    | some info =>
      obtain ⟨g, dF, tF⟩ := info
      simp only [parseLoop, hdet]
      rw [ih (newCurOf g dF tF) (recs ++ flushRecs cur),
        ih (newCurOf g dF tF) ([] ++ flushRecs cur)]
      simp [List.append_assoc]
    | none =>
      simp only [parseLoop, hdet]
      exact ih (appendMsg cur ln) recs

theorem flushRecs_date_none {cur : Cur} (h : cur.date = none) :
    flushRecs cur = [] := by
  simp [flushRecs, h]

theorem appendMsg_fields (cur : Cur) (ln : List Char) :
    (appendMsg cur ln).date = cur.date ∧ (appendMsg cur ln).time = cur.time ∧
      (appendMsg cur ln).user = cur.user := by
  simp [appendMsg]

theorem flushRecs_appendMsg_length (cur : Cur) (ln : List Char) :
    (flushRecs (appendMsg cur ln)).length = (flushRecs cur).length := by
  cases hd : cur.date <;> cases ht : cur.time <;>
    simp [flushRecs, appendMsg, hd, ht]

theorem flushRecs_newCur_length (g : Groups) (dF : List Char)
    (tF : Option (List Char)) :
    (flushRecs (newCurOf g dF tF)).length =
      if (headerPdt g dF tF).isSome then 1 else 0 := by
  cases hp : headerPdt g dF tF <;> simp [flushRecs, newCurOf, hp]

theorem lineTimestamp_of_detect {ln : List Char} {g : Groups} {dF : List Char}
    {tF : Option (List Char)} (h : detect_header ln = some (g, dF, tF)) :
    lineTimestamp ln = headerPdt g dF tF := by
  simp [lineTimestamp, h]

theorem lineResolvable_of_not_detect {ln : List Char}
    (h : detect_header ln = none) : lineResolvable ln = false := by
  simp [lineResolvable, lineTimestamp, h]

theorem parseLoop_length (ls : List (List Char)) :
    ∀ cur : Cur,
      (parseLoop cur [] ls).length =
        (flushRecs cur).length + ls.countP lineResolvable := by
  induction ls with
  | nil => intro cur; simp [parseLoop]
  | cons ln ls ih =>
    intro cur
    cases hdet : detect_header ln with
    | some info =>
      obtain ⟨g, dF, tF⟩ := info
      simp only [parseLoop, hdet]
      rw [parseLoop_acc ls (newCurOf g dF tF) ([] ++ flushRecs cur)]
      have hres : lineResolvable ln = (headerPdt g dF tF).isSome := by
        simp [lineResolvable, lineTimestamp_of_detect hdet]
      simp [ih (newCurOf g dF tF), flushRecs_newCur_length, List.countP_cons, hres]
      cases hp : (headerPdt g dF tF).isSome
      · simp [hp]
      · simp [hp]
        omega
    | none =>
      simp only [parseLoop, hdet]
      rw [ih (appendMsg cur ln)]
      simp [flushRecs_appendMsg_length, List.countP_cons,
        lineResolvable_of_not_detect hdet]

theorem parseLoop_dateless (ls : List (List Char)) :
    ∀ cur cur' : Cur, cur.date = none → cur'.date = none →
      parseLoop cur [] ls = parseLoop cur' [] ls := by
  induction ls with
  | nil =>
    intro cur cur' h h'
    simp [parseLoop, flushRecs_date_none h, flushRecs_date_none h']
  | cons ln ls ih =>
    intro cur cur' h h'
    cases hdet : detect_header ln with
    | some info =>
      obtain ⟨g, dF, tF⟩ := info
      simp only [parseLoop, hdet, List.nil_append,
        flushRecs_date_none h, flushRecs_date_none h']
    | none =>
      simp only [parseLoop, hdet]
      exact ih (appendMsg cur ln) (appendMsg cur' ln)
        (by simp [appendMsg, h]) (by simp [appendMsg, h'])

theorem parseLoop_eq_emitted (ls : List (List Char)) :
    ∀ cur : Cur,
      parseLoop cur [] ls = emittedFrom cur ls ++ flushRecs (stateAfter cur ls) := by
  induction ls with
  | nil => intro cur; simp [parseLoop, emittedFrom, stateAfter]
  | cons ln ls ih =>
    intro cur
    cases hdet : detect_header ln with
    | some info =>
      obtain ⟨g, dF, tF⟩ := info
      simp only [parseLoop, emittedFrom, stateAfter, hdet, List.nil_append]
      rw [parseLoop_acc ls (newCurOf g dF tF) (flushRecs cur), ih (newCurOf g dF tF)]
      simp [List.append_assoc]
    | none =>
      simp only [parseLoop, emittedFrom, stateAfter, hdet]
      exact ih (appendMsg cur ln)

theorem parseLoop_split (as : List (List Char)) :
    ∀ (cur : Cur) (bs : List (List Char)),
      parseLoop cur [] (as ++ bs) =
        emittedFrom cur as ++ parseLoop (stateAfter cur as) [] bs := by
  induction as with
  | nil => intro cur bs; simp [emittedFrom, stateAfter]
  | cons ln as ih =>
    intro cur bs
    cases hdet : detect_header ln with
    | some info =>
      obtain ⟨g, dF, tF⟩ := info
      simp only [List.cons_append, parseLoop, emittedFrom, stateAfter, hdet,
        List.nil_append, List.append_eq]
      rw [parseLoop_acc (as ++ bs) (newCurOf g dF tF) (flushRecs cur),
        ih (newCurOf g dF tF) bs]
      simp [List.append_assoc]
    | none =>
      simp only [List.cons_append, parseLoop, emittedFrom, stateAfter, hdet]
      exact ih (appendMsg cur ln) bs

theorem stateAfter_nonheaders (as : List (List Char)) :
    ∀ cur : Cur, (∀ l ∈ as, detect_header l = none) →
      stateAfter cur as = {cur with message := cur.message ++ as} := by
  induction as with
  | nil => intro cur _; simp [stateAfter]
  | cons ln as ih =>
    intro cur h
    have hln : detect_header ln = none := h ln (List.mem_cons_self ln as)
    simp only [stateAfter, hln]
    rw [ih (appendMsg cur ln) (fun l hl => h l (List.mem_cons_of_mem ln hl))]
    simp [appendMsg]

theorem emittedFrom_nonheaders (as : List (List Char)) :
    ∀ cur : Cur, (∀ l ∈ as, detect_header l = none) →
      emittedFrom cur as = [] := by
  induction as with
  | nil => intro cur _; rfl
  | cons ln as ih =>
    intro cur h
    have hln : detect_header ln = none := h ln (List.mem_cons_self ln as)
    simp only [emittedFrom, hln]
    exact ih (appendMsg cur ln) (fun l hl => h l (List.mem_cons_of_mem ln hl))

/-! ## Disjointness of the header grammars -/

theorem dropLit_eq_append : ∀ lit cs r : List Char,
    dropLit lit cs = some r → cs = lit ++ r := by
  intro lit
  induction lit with
  | nil =>
    intro cs r h
    simp only [dropLit, Option.some.injEq] at h
    simp [h]
  | cons a lit ih =>
    intro cs r h
    cases cs with
    | nil => exact absurd h (by simp [dropLit])
    | cons c cs' =>
      simp only [dropLit] at h
      by_cases hc : c = a
      · rw [if_pos hc] at h
        rw [List.cons_append, ← ih cs' r h, hc]
      · rw [if_neg hc] at h
        exact absurd h (by simp)

theorem matchP1_inv {cs : List Char} {g : Groups} (h : matchP1 cs = some g) :
    ∃ d t r2 r3, parseDashLead cs = some (d, t, r2) ∧
      dropLit (strL " - ") r2 = some r3 := by
  simp only [matchP1] at h
  split at h
  · exact absurd h (by simp)
  · rename_i d t r2 hdl
    split at h
    · exact absurd h (by simp)
    · rename_i r3 hlit
      exact ⟨d, t, r2, r3, hdl, hlit⟩

theorem matchP2_inv {cs : List Char} {g : Groups} (h : matchP2 cs = some g) :
    ∃ d t r2 ap r3, parseDashLead cs = some (d, t, r2) ∧
      parseAmPm r2 = some (ap, r3) := by
  simp only [matchP2] at h
  split at h
  · exact absurd h (by simp)
  · rename_i d t r2 hdl
    split at h
    · exact absurd h (by simp)
    · rename_i ap r3 hap
      exact ⟨d, t, r2, ap, r3, hdl, hap⟩

theorem matchP3_inv {cs : List Char} {g : Groups} (h : matchP3 cs = some g) :
    ∃ d t r3 r4, parseBracketLead cs = some (d, t, r3) ∧
      dropLit (strL "] ") r3 = some r4 := by
  simp only [matchP3] at h
  split at h
  · exact absurd h (by simp)
  · rename_i d t r3 hbl
    split at h
    · exact absurd h (by simp)
    · rename_i r4 hlit
      exact ⟨d, t, r3, r4, hbl, hlit⟩

theorem matchP4_inv {cs : List Char} {g : Groups} (h : matchP4 cs = some g) :
    ∃ d t r3 ap r4, parseBracketLead cs = some (d, t, r3) ∧
      parseAmPm r3 = some (ap, r4) := by
  simp only [matchP4] at h
  split at h
  · exact absurd h (by simp)
  · rename_i d t r3 hbl
    split at h
    · exact absurd h (by simp)
    · rename_i ap r4 hap
      exact ⟨d, t, r3, ap, r4, hbl, hap⟩

theorem bracket_dash_excl {cs : List Char} {x : List Char × List Char × List Char}
    (h : parseBracketLead cs = some x) : parseDashLead cs = none := by
  cases cs with
  | nil => exact absurd h (by simp [parseBracketLead])
  | cons c r0 =>
    by_cases hc : c = '['
    · subst hc
      rfl
    · simp [parseBracketLead, hc] at h

theorem mutex12 {line : List Char} (h1 : (matchP1 line).isSome = true)
    (h2 : (matchP2 line).isSome = true) : False := by
  obtain ⟨g1, hg1⟩ := Option.isSome_iff_exists.mp h1
  obtain ⟨g2, hg2⟩ := Option.isSome_iff_exists.mp h2
  obtain ⟨d1, t1, r2, r3, hdl1, hlit⟩ := matchP1_inv hg1
  obtain ⟨d2, t2, r2b, ap, r3b, hdl2, hap⟩ := matchP2_inv hg2
  rw [hdl1] at hdl2
  have hr2 : r2 = r2b := congrArg (fun p => p.2.2) (Option.some.inj hdl2)
  have hr2e : r2 = ' ' :: '-' :: ' ' :: r3 := dropLit_eq_append _ _ _ hlit
  rw [← hr2, hr2e] at hap
  have hnone : parseAmPm (' ' :: '-' :: ' ' :: r3) = none := rfl
  rw [hnone] at hap
  exact Option.noConfusion hap

theorem mutex34 {line : List Char} (h3 : (matchP3 line).isSome = true)
    (h4 : (matchP4 line).isSome = true) : False := by
  obtain ⟨g3, hg3⟩ := Option.isSome_iff_exists.mp h3
  obtain ⟨g4, hg4⟩ := Option.isSome_iff_exists.mp h4
  obtain ⟨d1, t1, r3, r4, hbl1, hlit⟩ := matchP3_inv hg3
  obtain ⟨d2, t2, r3b, ap, r4b, hbl2, hap⟩ := matchP4_inv hg4
  rw [hbl1] at hbl2
  have hr3 : r3 = r3b := congrArg (fun p => p.2.2) (Option.some.inj hbl2)
  have hr3e : r3 = ']' :: ' ' :: r4 := dropLit_eq_append _ _ _ hlit
  rw [← hr3, hr3e] at hap
  have hnone : parseAmPm (']' :: ' ' :: r4) = none := rfl
  rw [hnone] at hap
  exact Option.noConfusion hap

theorem mutex13 {line : List Char} (h1 : (matchP1 line).isSome = true)
    (h3 : (matchP3 line).isSome = true) : False := by
  obtain ⟨g1, hg1⟩ := Option.isSome_iff_exists.mp h1
  obtain ⟨g3, hg3⟩ := Option.isSome_iff_exists.mp h3
  obtain ⟨_, _, _, _, hdl, _⟩ := matchP1_inv hg1
  obtain ⟨_, _, _, _, hbl, _⟩ := matchP3_inv hg3
  rw [bracket_dash_excl hbl] at hdl
  exact Option.noConfusion hdl

theorem mutex14 {line : List Char} (h1 : (matchP1 line).isSome = true)
    (h4 : (matchP4 line).isSome = true) : False := by
  obtain ⟨g1, hg1⟩ := Option.isSome_iff_exists.mp h1
  obtain ⟨g4, hg4⟩ := Option.isSome_iff_exists.mp h4
  obtain ⟨_, _, _, _, hdl, _⟩ := matchP1_inv hg1
  obtain ⟨_, _, _, _, _, hbl, _⟩ := matchP4_inv hg4
  rw [bracket_dash_excl hbl] at hdl
  exact Option.noConfusion hdl

theorem mutex23 {line : List Char} (h2 : (matchP2 line).isSome = true)
    (h3 : (matchP3 line).isSome = true) : False := by
  obtain ⟨g2, hg2⟩ := Option.isSome_iff_exists.mp h2
  obtain ⟨g3, hg3⟩ := Option.isSome_iff_exists.mp h3
  obtain ⟨_, _, _, _, _, hdl, _⟩ := matchP2_inv hg2
  obtain ⟨_, _, _, _, hbl, _⟩ := matchP3_inv hg3
  rw [bracket_dash_excl hbl] at hdl
  exact Option.noConfusion hdl

theorem mutex24 {line : List Char} (h2 : (matchP2 line).isSome = true)
    (h4 : (matchP4 line).isSome = true) : False := by
  obtain ⟨g2, hg2⟩ := Option.isSome_iff_exists.mp h2
  obtain ⟨g4, hg4⟩ := Option.isSome_iff_exists.mp h4
  obtain ⟨_, _, _, _, _, hdl, _⟩ := matchP2_inv hg2
  obtain ⟨_, _, _, _, _, hbl, _⟩ := matchP4_inv hg4
  rw [bracket_dash_excl hbl] at hdl
  exact Option.noConfusion hdl

theorem detectIn_findSome
    (l : List ((List Char → Option Groups) × List Char × Option (List Char)))
    (line : List Char) :
    detectIn l line =
      l.findSome? (fun e => (e.1 line).map (fun g => (g, e.2.1, e.2.2))) := by
  induction l with
  | nil => rfl
  | cons e es ih =>
    cases he : e.1 line with
    | some g => simp [detectIn, List.findSome?_cons, he]
    | none => simp [detectIn, List.findSome?_cons, he, ih]

/-- Unfolding of `robust_preprocess` with its `let`-bindings expanded. -/
theorem robust_preprocess_eq (text : List Char) :
    robust_preprocess text =
      if (extractLines text).isEmpty then []
      else if (parseLoop initCur [] (extractLines text)).isEmpty then []
      else (parseLoop initCur [] (extractLines text)).map buildRow := rfl

/-- Shared helper: the row count of `robust_preprocess` equals the number
of resolvable header lines. -/
theorem robust_preprocess_length (text : List Char) :
    (robust_preprocess text).length = (extractLines text).countP lineResolvable := by
  rw [robust_preprocess_eq]
  have hcount := parseLoop_length (extractLines text) initCur
  rw [show flushRecs initCur = [] from rfl] at hcount
  simp only [List.length_nil, Nat.zero_add] at hcount
  by_cases hl : (extractLines text).isEmpty = true
  · have hnil : extractLines text = [] := by
      cases hx : extractLines text with
      | nil => rfl
      | cons a as => rw [hx] at hl; simp [List.isEmpty] at hl
    simp [hl, hnil]
  · by_cases hr : (parseLoop initCur [] (extractLines text)).isEmpty = true
    · have hnil : parseLoop initCur [] (extractLines text) = [] := by
        cases hx : parseLoop initCur [] (extractLines text) with
        | nil => rfl
        | cons a as => rw [hx] at hr; simp [List.isEmpty] at hr
      rw [hnil] at hcount
      simp [hl, hr, ← hcount]
    · simp [hl, hr, ← hcount]

/-- C1: for every input document, the number of rows returned by
`robust_preprocess` equals the number of (non-blank) lines that match a
header grammar and whose date/time substrings resolve to a timestamp under
the fallback orderings — so each resolvable header line contributes exactly
one record and all other lines contribute none. -/
theorem claim_C1 (text : List Char) :
    (robust_preprocess text).length = (extractLines text).countP lineResolvable :=
  robust_preprocess_length text

/-- C8: an input with zero non-blank lines yields the empty table, and so
does any input in which no line resolves a timestamp (no record is ever
flushed); in both cases `robust_preprocess` returns the valid empty result
rather than failing (the function is total). -/
theorem claim_C8 (text : List Char) :
    (extractLines text = [] → robust_preprocess text = []) ∧
      ((extractLines text).countP lineResolvable = 0 → robust_preprocess text = []) := by
  constructor
  · intro h
    rw [robust_preprocess_eq, h]
    rfl
  · intro h
    have hlen : (robust_preprocess text).length = 0 := by
      rw [robust_preprocess_length text, h]
    cases hx : robust_preprocess text with
    | nil => rfl
    | cons a as => rw [hx] at hlen; simp at hlen

/-- C10: the preliminary scan of the first 200 lines has no effect on the
output: `robust_preprocess` agrees with the same function with the scan
removed on every input, since the scan's result is never consumed. -/
theorem claim_C10 (text : List Char) :
    robust_preprocess text = robust_preprocess_noscan text := rfl

/-- Witness for C8: the empty document, and a document with only non-header
lines, both yield the empty table. -/
theorem claim_C8_witness :
    extractLines (strL "") = [] ∧ robust_preprocess (strL "") = [] ∧
      (extractLines (strL "hello\nworld")).countP lineResolvable = 0 ∧
      robust_preprocess (strL "hello\nworld") = [] :=
  ⟨by decide, (claim_C8 (strL "")).1 (by decide),
   by decide, (claim_C8 (strL "hello\nworld")).2 (by decide)⟩

/-- C3: lines preceding the first recognized header never appear in any
emitted record — an all-non-header preamble can be removed without changing
the records the scan produces at all. -/
theorem claim_C3 (pre rest : List (List Char))
    (hpre : ∀ l ∈ pre, detect_header l = none) :
    parseLoop initCur [] (pre ++ rest) = parseLoop initCur [] rest := by
  rw [parseLoop_split pre initCur rest, emittedFrom_nonheaders pre initCur hpre,
    stateAfter_nonheaders pre initCur hpre]
  simp only [List.nil_append]
  exact parseLoop_dateless rest _ _ rfl rfl

/-- Witness for C3: a garbage preamble line before a real header changes
nothing. -/
theorem claim_C3_witness :
    (∀ l ∈ [strL "hello world"], detect_header l = none) ∧
      parseLoop initCur []
          ([strL "hello world"] ++ [strL "12/08/2025, 22:15 - Alice: Hi"]) =
        parseLoop initCur [] [strL "12/08/2025, 22:15 - Alice: Hi"] :=
  ⟨by decide, claim_C3 _ _ (by decide)⟩

/-- C6: a line that structurally matches a header grammar but resolves no
timestamp produces no record and does not abort the scan: the records of
the whole document are exactly those of the part before the bad header
followed by those of the part after it. -/
theorem claim_C6 (pre : List (List Char)) (bad : List Char)
    (rest : List (List Char)) (g : Groups) (dF : List Char)
    (tF : Option (List Char)) (hdet : detect_header bad = some (g, dF, tF))
    (hfail : headerPdt g dF tF = none) :
    parseLoop initCur [] (pre ++ bad :: rest) =
      parseLoop initCur [] pre ++ parseLoop initCur [] rest := by
  rw [parseLoop_split pre initCur (bad :: rest)]
  simp only [parseLoop, hdet]
  rw [parseLoop_acc rest (newCurOf g dF tF)
      ([] ++ flushRecs (stateAfter initCur pre)),
    parseLoop_dateless rest (newCurOf g dF tF) initCur
      (by simp [newCurOf, hfail]) rfl,
    parseLoop_eq_emitted pre initCur]
  simp [List.append_assoc]

/-- Witness for C6: a header-shaped line with impossible date digits drops
out while the records before and after it survive. -/
theorem claim_C6_witness :
    detect_header (strL "99/99/2025, 22:15 - Bad: x") =
        some (⟨strL "99/99/2025", strL "22:15", strL "Bad", strL "x"⟩,
          strL "%d/%m/%Y", some (strL "%H:%M")) ∧
      headerPdt ⟨strL "99/99/2025", strL "22:15", strL "Bad", strL "x"⟩
          (strL "%d/%m/%Y") (some (strL "%H:%M")) = none ∧
      parseLoop initCur []
          ([strL "12/08/2025, 22:15 - A: one"] ++
            strL "99/99/2025, 22:15 - Bad: x" ::
              [strL "13/08/2025, 09:00 - C: two"]) =
        parseLoop initCur [] [strL "12/08/2025, 22:15 - A: one"] ++
          parseLoop initCur [] [strL "13/08/2025, 09:00 - C: two"] :=
  ⟨by decide, by decide,
    claim_C6 [strL "12/08/2025, 22:15 - A: one"] (strL "99/99/2025, 22:15 - Bad: x")
      [strL "13/08/2025, 09:00 - C: two"]
      ⟨strL "99/99/2025", strL "22:15", strL "Bad", strL "x"⟩
      (strL "%d/%m/%Y") (some (strL "%H:%M")) (by decide) (by decide)⟩

/-- C2: a resolvable header followed by N non-header continuation lines
(up to the next header or the end of input) emits a record whose message is
the header's inline fragment (when non-empty) together with those N lines,
in order, joined by newlines and stripped of surrounding whitespace. -/
theorem claim_C2 (pre : List (List Char)) (h : List Char)
    (conts rest : List (List Char)) (g : Groups) (dF : List Char)
    (tF : Option (List Char)) (dt : Datetime)
    (hdet : detect_header h = some (g, dF, tF))
    (hdt : headerPdt g dF tF = some dt)
    (hconts : ∀ l ∈ conts, detect_header l = none)
    (hrest : rest = [] ∨ ∃ r rs, rest = r :: rs ∧ (detect_header r).isSome = true) :
    ∃ tail, parseLoop initCur [] (pre ++ h :: (conts ++ rest)) =
      parseLoop initCur [] pre ++
        Record.mk dt dt (userResolve (mkUserField g.userRaw))
          (pyStrip (List.intercalate ['\n'] (mkMsgInit g.msgRaw ++ conts))) :: tail := by
  rw [parseLoop_split pre initCur (h :: (conts ++ rest))]
  simp only [parseLoop, hdet]
  rw [parseLoop_acc (conts ++ rest) (newCurOf g dF tF)
      ([] ++ flushRecs (stateAfter initCur pre)),
    parseLoop_split conts (newCurOf g dF tF) rest,
    emittedFrom_nonheaders conts _ hconts, stateAfter_nonheaders conts _ hconts]
  have hflush :
      flushRecs {newCurOf g dF tF with message := (newCurOf g dF tF).message ++ conts} =
        [Record.mk dt dt (userResolve (mkUserField g.userRaw))
          (pyStrip (List.intercalate ['\n'] (mkMsgInit g.msgRaw ++ conts)))] := by
    simp [newCurOf, flushRecs, hdt]
  rcases hrest with hnil | ⟨r, rs, hr, hrsome⟩
  · subst hnil
    refine ⟨[], ?_⟩
    rw [parseLoop_eq_emitted pre initCur]
    simp only [parseLoop, List.append_nil]
    rw [hflush]
    simp [List.append_assoc]
  · obtain ⟨info, hinfo⟩ := Option.isSome_iff_exists.mp hrsome
    obtain ⟨g2, d2, t2⟩ := info
    subst hr
    refine ⟨parseLoop (newCurOf g2 d2 t2) [] rs, ?_⟩
    rw [parseLoop_eq_emitted pre initCur]
    simp only [parseLoop, hinfo]
    rw [parseLoop_acc rs (newCurOf g2 d2 t2)
        ([] ++ flushRecs {newCurOf g dF tF with
          message := (newCurOf g dF tF).message ++ conts}),
      hflush]
    simp [List.append_assoc]

/-- Witness for C2: "Hello" with two continuation lines reconstructs to
"Hello\nworld\nagain". -/
theorem claim_C2_witness :
    detect_header (strL "12/08/2025, 22:15 - Alice: Hello") =
        some (⟨strL "12/08/2025", strL "22:15", strL "Alice", strL "Hello"⟩,
          strL "%d/%m/%Y", some (strL "%H:%M")) ∧
      headerPdt ⟨strL "12/08/2025", strL "22:15", strL "Alice", strL "Hello"⟩
          (strL "%d/%m/%Y") (some (strL "%H:%M")) = some ⟨2025, 8, 12, 22, 15, 0⟩ ∧
      (∀ l ∈ [strL "world", strL "again"], detect_header l = none) ∧
      (∃ tail, parseLoop initCur []
          ([] ++ strL "12/08/2025, 22:15 - Alice: Hello" ::
            ([strL "world", strL "again"] ++ [])) =
        parseLoop initCur [] [] ++
          Record.mk ⟨2025, 8, 12, 22, 15, 0⟩ ⟨2025, 8, 12, 22, 15, 0⟩
            (userResolve (mkUserField (strL "Alice")))
            (pyStrip (List.intercalate ['\n']
              (mkMsgInit (strL "Hello") ++ [strL "world", strL "again"]))) :: tail) :=
  ⟨by decide, by decide, by decide,
    claim_C2 [] (strL "12/08/2025, 22:15 - Alice: Hello")
      [strL "world", strL "again"] []
      ⟨strL "12/08/2025", strL "22:15", strL "Alice", strL "Hello"⟩
      (strL "%d/%m/%Y") (some (strL "%H:%M")) ⟨2025, 8, 12, 22, 15, 0⟩
      (by decide) (by decide) (by decide) (Or.inl rfl)⟩

/-- C4: the date substring is parsed first assuming day/month order and
month/day order is tried only as the fallback; each attempt uses the
2-digit-year variant of its format exactly when the last slash-separated
segment of the date has fewer than 4 digits; and concretely "12/08/2025"
resolves to 12 August 2025 even though the month/day reading (8 December)
would also have succeeded. -/
theorem claim_C4 :
    (∀ dateRaw timeRaw tFmt : List Char,
        resolveTimestamp (strL "%d/%m/%Y") dateRaw timeRaw tFmt =
          (attemptParse (strL "%d/%m/%Y") dateRaw timeRaw tFmt).orElse
            (fun _ => attemptParse (strL "%m/%d/%Y") dateRaw timeRaw tFmt)) ∧
    (∀ fmtTry dateRaw timeRaw tFmt : List Char,
        (lastSlashSeg dateRaw).length ≤ 4 →
        attemptParse fmtTry dateRaw timeRaw tFmt =
          if (lastSlashSeg dateRaw).length < 4 then
            attemptRaw (replaceYY fmtTry) dateRaw timeRaw tFmt
          else attemptRaw fmtTry dateRaw timeRaw tFmt) ∧
    resolveTimestamp (strL "%d/%m/%Y") (strL "12/08/2025") (strL "22:15")
        (strL "%H:%M") = some ⟨2025, 8, 12, 22, 15, 0⟩ ∧
    attemptParse (strL "%m/%d/%Y") (strL "12/08/2025") (strL "22:15")
        (strL "%H:%M") = some ⟨2025, 12, 8, 22, 15, 0⟩ := by
  refine ⟨?_, ?_, by decide, by decide⟩
  · intro dateRaw timeRaw tFmt
    cases hA : attemptParse (strL "%d/%m/%Y") dateRaw timeRaw tFmt with
    | some dt => simp [resolveTimestamp, resolveFold, hA, Option.orElse]
    | none =>
      cases hB : attemptParse (strL "%m/%d/%Y") dateRaw timeRaw tFmt with
      | some dt => simp [resolveTimestamp, resolveFold, hA, hB, Option.orElse]
      | none => simp [resolveTimestamp, resolveFold, hA, hB, Option.orElse]
  · intro fmtTry dateRaw timeRaw tFmt hle
    by_cases h4 : (lastSlashSeg dateRaw).length = 4
    · rw [if_neg (by omega)]
      simp [attemptParse, h4]
    · rw [if_pos (by omega)]
      simp [attemptParse, h4]

/-- Witness for C4: a two-digit year ("12/08/25") goes through the
2-digit-year branch of the year-width rule. -/
theorem claim_C4_witness :
    (lastSlashSeg (strL "12/08/25")).length ≤ 4 ∧
      attemptParse (strL "%d/%m/%Y") (strL "12/08/25") (strL "22:15") (strL "%H:%M") =
        (if (lastSlashSeg (strL "12/08/25")).length < 4 then
          attemptRaw (replaceYY (strL "%d/%m/%Y")) (strL "12/08/25") (strL "22:15")
            (strL "%H:%M")
        else attemptRaw (strL "%d/%m/%Y") (strL "12/08/25") (strL "22:15")
          (strL "%H:%M")) :=
  ⟨by decide, claim_C4.2.1 (strL "%d/%m/%Y") (strL "12/08/25") (strL "22:15")
    (strL "%H:%M") (by decide)⟩

theorem splitColon_no_colon : ∀ tr : List Char,
    containsColon tr = false → splitColon tr = [tr] := by
  intro tr
  induction tr with
  | nil => intro _; rfl
  | cons c rest ih =>
    intro hfalse
    simp only [containsColon, List.any_cons, Bool.or_eq_false_iff] at hfalse
    obtain ⟨hc, hrest⟩ := hfalse
    have hc' : ¬ c = ':' := by simpa using hc
    have hr : splitColon rest = [rest] := ih (by simpa [containsColon] using hrest)
    simp [splitColon, hc', hr]

/-- C5: the dynamically inferred time format is exactly the classification
the spec describes — three colon-separated groups mean a seconds component
and an AM/PM marker selects the 12-hour variants, giving one of the four
concrete formats; and concretely the document
"[12/08/2025, 10:15:03 PM] Bob: Hi" yields the single record with timestamp
2025-08-12T22:15:03, author "Bob" and message "Hi". -/
theorem claim_C5 :
    (∀ tr : List Char, classifyTime tr = specClassifyTime tr) ∧
      (robust_preprocess (strL "[12/08/2025, 10:15:03 PM] Bob: Hi")).map
          (fun r => (r.datetime, r.user, r.message)) =
        [(⟨2025, 8, 12, 22, 15, 3⟩, strL "Bob", strL "Hi")] := by
  constructor
  · intro tr
    by_cases h3 : (splitColon tr).length = 3
    · have hc : containsColon tr = true := by
        cases hcc : containsColon tr
        · rw [splitColon_no_colon tr hcc] at h3; simp at h3
        · rfl
      by_cases ha : hasAmPm tr = true
      · simp [classifyTime, specClassifyTime, h3, ha, hc]
      · have ha' : hasAmPm tr = false := by simpa using ha
        simp [classifyTime, specClassifyTime, h3, ha', hc]
    · by_cases ha : hasAmPm tr = true
      · simp [classifyTime, specClassifyTime, h3, ha]
      · have ha' : hasAmPm tr = false := by simpa using ha
        simp [classifyTime, specClassifyTime, h3, ha']
  · decide

/-- C7: `try_decode` is total and returns the result of the first encoding
in (utf-8, cp1252, latin-1) that decodes without error; such an encoding
always exists because latin-1 accepts every byte string, so the
errors-ignored last resort is never needed. -/
theorem claim_C7 (raw : List Nat) :
    ∃ s, ((utf8Decode raw).orElse
        (fun _ => (cp1252Decode raw).orElse (fun _ => latin1Decode raw))) = some s ∧
      try_decode raw = s := by
  cases h1 : utf8Decode raw with
  | some s => exact ⟨s, by simp [h1, Option.orElse], by simp [try_decode, h1]⟩
  | none =>
    cases h2 : cp1252Decode raw with
    | some s =>
      exact ⟨s, by simp [h1, h2, Option.orElse], by simp [try_decode, h1, h2]⟩
    | none =>
      exact ⟨raw.map Char.ofNat, by simp [h1, h2, Option.orElse, latin1Decode],
        by simp [try_decode, h1, h2, latin1Decode]⟩

/-- C9: on every line at most one of the four header grammars matches, and
`detect_header` returns the first matching grammar in list order. -/
theorem claim_C9 (line : List Char) :
    (HEADER_PATTERNS.countP fun e => (e.1 line).isSome) ≤ 1 ∧
      detect_header line =
        HEADER_PATTERNS.findSome?
          (fun e => (e.1 line).map (fun g => (g, e.2.1, e.2.2))) := by
  constructor
  · by_cases h1 : (matchP1 line).isSome = true <;>
      by_cases h2 : (matchP2 line).isSome = true <;>
        by_cases h3 : (matchP3 line).isSome = true <;>
          by_cases h4 : (matchP4 line).isSome = true <;>
            first
            | exact (mutex12 h1 h2).elim
            | exact (mutex34 h3 h4).elim
            | exact (mutex13 h1 h3).elim
            | exact (mutex14 h1 h4).elim
            | exact (mutex23 h2 h3).elim
            | exact (mutex24 h2 h4).elim
            | simp [HEADER_PATTERNS, List.countP_cons, h1, h2, h3, h4]
  · exact detectIn_findSome HEADER_PATTERNS line
